import Mathlib

/-!
Shallow embedding of the `sgevents` library (files `sgevents/event.py` and
`sgevents/utils.py`) and proofs about it.

Python values that flow through the code are modelled by `PyVal`
(`None`, integers, strings, and string-keyed dictionaries); a raw event
record — a Python `dict` — is a `PyDict`.  Fallible Python code
(`KeyError`, `IndexError`, `TypeError`, `AttributeError`, `ValueError`)
is modelled with `Except String`.  String-escaping inside `repr` is
elided (no input treated here contains quote or escape characters).
-/

namespace SGEvents

mutual

inductive PyVal where
  | none
  | int (n : Int)
  | str (s : String)
  | dict (d : PyDict)

inductive PyDict where
  | nil
  | cons (key : String) (val : PyVal) (rest : PyDict)

end

/-- Python truthiness for the modelled values: `None` is falsy, `0` is falsy,
the empty string is falsy, the empty dict is falsy. -/
def truthy : PyVal → Bool
  | PyVal.none => false
  | PyVal.int n => n != 0
  | PyVal.str s => s != ""
  | PyVal.dict PyDict.nil => false
  | PyVal.dict (PyDict.cons _ _ _) => true

/-- First-match association lookup; the dicts built by this model have
unique keys, matching Python dict semantics. -/
def PyDict.lookup : PyDict → String → Option PyVal
  | PyDict.nil, _ => Option.none
  | PyDict.cons k v rest, key => if k = key then some v else PyDict.lookup rest key

def PyDict.hasKey : PyDict → String → Bool
  | PyDict.nil, _ => false
  | PyDict.cons k _ rest, key => k = key || PyDict.hasKey rest key

/-- Python `dict.__setitem__`: overwrite in place if the key exists,
otherwise append at the end (insertion order preserved). -/
def PyDict.setVal : PyDict → String → PyVal → PyDict
  | PyDict.nil, key, v => PyDict.cons key v PyDict.nil
  | PyDict.cons k w rest, key, v =>
    if k = key then PyDict.cons k v rest
    else PyDict.cons k w (PyDict.setVal rest key v)

/-- An event record: `Event(dict)` in `event.py` is the raw mapping itself. -/
abbrev Event := PyDict

/-- `dict.get(key)` with default `None`, as used by `_item_property`. -/
def get (e : PyDict) (key : String) : PyVal :=
  (PyDict.lookup e key).getD PyVal.none

/-- Python `v[key]`: `KeyError` on a missing key, `TypeError` when `v` is not
subscriptable by a string key (strings are subscriptable by ints only). -/
def pyGetItem (v : PyVal) (key : String) : Except String PyVal :=
  match v with
  | PyVal.dict d =>
    match PyDict.lookup d key with
    | some x => Except.ok x
    | Option.none => Except.error ("KeyError: " ++ key)
  | _ => Except.error "TypeError: value is not subscriptable by a string"

/-- Python `v.get(key)` (dict method), `AttributeError` on non-dicts. -/
def pyMethodGet (v : PyVal) (key : String) : Except String PyVal :=
  match v with
  | PyVal.dict d => Except.ok ((PyDict.lookup d key).getD PyVal.none)
  | _ => Except.error "AttributeError: value has no attribute get"

def listStartsWith : List Char → List Char → Bool
  | [], _ => true
  | _ :: _, [] => false
  | n :: ns, h :: hs => n = h && listStartsWith ns hs

def listHasSub : List Char → List Char → Bool
  | need, [] => listStartsWith need []
  | need, h :: hs => listStartsWith need (h :: hs) || listHasSub need hs

/-- Python `key in v`: key membership for dicts, substring test for strings,
`TypeError` for `None` and integers (not iterable). -/
def pyContains (v : PyVal) (key : String) : Except String Bool :=
  match v with
  | PyVal.dict d => Except.ok (PyDict.hasKey d key)
  | PyVal.str s => Except.ok (listHasSub key.toList s.toList)
  | _ => Except.error "TypeError: argument is not iterable"

/-- Python `'%d' % v`: renders an integer, `TypeError` otherwise. -/
def formatD : PyVal → Except String String
  | PyVal.int n => Except.ok (toString n)
  | _ => Except.error "TypeError: %d format: a number is required"

/-- The single-quote character. -/
def sqc : Char := Char.ofNat 39

def hexDigitChar (n : Nat) : Char :=
  if n < 10 then Char.ofNat (48 + n) else Char.ofNat (87 + n)

/-- Quote selection of py2 `repr` on a byte string: single quotes, unless the
string contains a single quote and no double quote. -/
def pyReprQuote (s : String) : Char :=
  if s.toList.contains sqc && !(s.toList.contains '"') then '"' else sqc

/-- The escape of one byte inside py2 `repr`: backslash-escape the chosen
quote and the backslash, `\n`/`\r`/`\t` by name, every other byte outside
the printable range 32–126 as `\xhh`.  Code points ≥ 256 do not occur in a
py2 byte string and pass through unchanged. -/
def pyReprEscChar (q c : Char) : List Char :=
  if c = q || c = '\\' then ['\\', c]
  else if c = '\n' then ['\\', 'n']
  else if c = '\r' then ['\\', 'r']
  else if c = '\t' then ['\\', 't']
  else if c.toNat < 32 || (127 ≤ c.toNat && c.toNat < 256) then
    ['\\', 'x', hexDigitChar (c.toNat / 16), hexDigitChar (c.toNat % 16)]
  else [c]

/-- py2 `repr` of a byte string: the chosen quote around the escaped bytes. -/
def pyReprStr (s : String) : String :=
  String.mk (pyReprQuote s :: (s.toList.flatMap (pyReprEscChar (pyReprQuote s))) ++ [pyReprQuote s])

mutual

/-- Python `repr` restricted to the modelled values. -/
def pyRepr : PyVal → String
  | PyVal.none => "None"
  | PyVal.int n => toString n
  | PyVal.str s => pyReprStr s
  | PyVal.dict d => "\x7b" ++ pyReprD d ++ "\x7d"

def pyReprD : PyDict → String
  | PyDict.nil => ""
  | PyDict.cons k v PyDict.nil => pyReprStr k ++ ": " ++ pyRepr v
  | PyDict.cons k v rest => pyReprStr k ++ ": " ++ pyRepr v ++ ", " ++ pyReprD rest

end

/-- Python `str(v)` for the modelled values. -/
def pyStr : PyVal → String
  | PyVal.none => "None"
  | PyVal.int n => toString n
  | PyVal.str s => s
  | PyVal.dict d => "\x7b" ++ pyReprD d ++ "\x7d"

/-- Python `str.split(sep, maxsplit)` on a character list; `Option.none` is an
unlimited `maxsplit`, `some k` allows at most `k` splits from the left.
Empty tokens are preserved, as in Python. -/
def pySplitChars (sep : Char) : Option Nat → List Char → List (List Char)
  | _, [] => [[]]
  | some 0, l => [l]
  | m, c :: cs =>
    if c = sep then
      List.nil :: pySplitChars sep (m.map (fun k => k - 1)) cs
    else
      match pySplitChars sep m cs with
      | [] => [[c]]
      | t :: ts => (c :: t) :: ts

/-- Python `str.split(sep, maxsplit)` (single-character separator). -/
def pySplit (sep : Char) (maxsplit : Option Nat) (s : String) : List String :=
  (pySplitChars sep maxsplit s.toList).map String.mk

/-- Python list indexing, `IndexError` out of range. -/
def listIndex (l : List String) (i : Nat) : Except String String :=
  match l.get? i with
  | some x => Except.ok x
  | Option.none => Except.error "IndexError: list index out of range"

/-- `.split` is only available on strings: `AttributeError` otherwise
(in particular on `None`, i.e. a missing `event_type` key). -/
def asSplittable : PyVal → Except String String
  | PyVal.str s => Except.ok s
  | _ => Except.error "AttributeError: value has no attribute split"

/-- `Event.type`: the raw `event_type` value (`_item_property`). -/
def eventType (e : Event) : PyVal := get e "event_type"

/-- `Event.domain`: `event_type.split('_', 2)[0]`. -/
def domain (e : Event) : Except String String := do
  let s ← asSplittable (get e "event_type")
  listIndex (pySplit '_' (some 2) s) 0

/-- `Event.entity_type`: `event_type.split('_')[1]` (unlimited split). -/
def entity_type (e : Event) : Except String String := do
  let s ← asSplittable (get e "event_type")
  listIndex (pySplit '_' Option.none s) 1

/-- `Event.subtype`: `event_type.split('_', 2)[2]`. -/
def subtype (e : Event) : Except String String := do
  let s ← asSplittable (get e "event_type")
  listIndex (pySplit '_' (some 2) s) 2

/-- `Event.entity_id` (computed property), translated line by line from
`event.py`: the truthiness test on `self.entity`, the `'entity_id' in
self.meta` containment (which raises `TypeError` when `meta` is absent,
since `None` is not iterable), the short-circuiting
`self.subtype == 'Change' and 'actual_attribute_changed' in self.meta`
guard, and the bare `return` yielding `None`. -/
def entity_id (e : Event) : Except String PyVal := do
  if truthy (get e "entity") then
    pyGetItem (get e "entity") "id"
  else do
    let hasEid ← pyContains (get e "meta") "entity_id"
    if hasEid then do
      let st ← subtype e
      if st = "Change" then do
        let hasActual ← pyContains (get e "meta") "actual_attribute_changed"
        if hasActual then
          Except.ok PyVal.none
        else
          pyGetItem (get e "meta") "entity_id"
      else
        pyGetItem (get e "meta") "entity_id"
    else
      Except.ok PyVal.none

/-- `' '.join(parts)`: every part must be a string. -/
def strOnly : PyVal → Except String String
  | PyVal.str s => Except.ok s
  | _ => Except.error "TypeError: sequence item: expected string"

def joinSpaceStr : List String → String
  | [] => ""
  | [s] => s
  | s :: rest => s ++ " " ++ joinSpaceStr rest

def partsToStrs : List PyVal → Except String (List String)
  | [] => Except.ok []
  | p :: rest => do
    let s ← strOnly p
    let ss ← partsToStrs rest
    Except.ok (s :: ss)

def joinParts (parts : List PyVal) : Except String String := do
  let ss ← partsToStrs parts
  Except.ok (joinSpaceStr ss)

/-- `Event.summary` (computed property), translated from `event.py`:
`parts = [self.type]`, the entity branch with `'on %s:%d'` and the quoted
name, the fallback branch `'on %s:%s'` with `self.entity_id or 'unknown'`,
the user branch with `'by %s:%d'`, and the final `' '.join(parts)`. -/
def summary (e : Event) : Except String String := do
  let entParts ←
    if truthy (get e "entity") then do
      let ty ← pyGetItem (get e "entity") "type"
      let idv ← pyGetItem (get e "entity") "id"
      let idStr ← formatD idv
      let nameV ← pyMethodGet (get e "entity") "name"
      if truthy nameV then do
        let nm ← pyGetItem (get e "entity") "name"
        Except.ok [PyVal.str ("on " ++ pyStr ty ++ ":" ++ idStr),
                   PyVal.str ("(\"" ++ pyStr nm ++ "\")")]
      else
        Except.ok [PyVal.str ("on " ++ pyStr ty ++ ":" ++ idStr)]
    else do
      let et ← entity_type e
      let eid ← entity_id e
      let shown := if truthy eid then eid else PyVal.str "unknown"
      Except.ok [PyVal.str ("on " ++ et ++ ":" ++ pyStr shown)]
  let usrParts ←
    if truthy (get e "user") then do
      let ty ← pyGetItem (get e "user") "type"
      let idv ← pyGetItem (get e "user") "id"
      let idStr ← formatD idv
      let nameV ← pyMethodGet (get e "user") "name"
      if truthy nameV then do
        let nm ← pyGetItem (get e "user") "name"
        Except.ok [PyVal.str ("by " ++ pyStr ty ++ ":" ++ idStr),
                   PyVal.str ("(\"" ++ pyStr nm ++ "\")")]
      else
        Except.ok [PyVal.str ("by " ++ pyStr ty ++ ":" ++ idStr)]
    else
      Except.ok []
  joinParts (eventType e :: (entParts ++ usrParts))

/-- `Event.factory`: tuple-unpacks `event['event_type'].split('_', 2)` into
exactly three names (a `KeyError` when the key is absent, a `ValueError`
when the split has fewer than three parts), then chooses the representation
class: exact `(domain, entity_type, subtype)` registry entry, else the
`(domain, None, subtype)` entry, else the base class.  Classes are
identified by a `Nat` tag, `0` being the base `Event` class; the registry
`_specialization_classes` is passed in as a lookup function. -/
def factory (reg : String × Option String × String → Option Nat) (e : Event) :
    Except String (Nat × Event) := do
  let etv ←
    match PyDict.lookup e "event_type" with
    | some v => Except.ok v
    | Option.none => Except.error "KeyError: event_type"
  let s ← asSplittable etv
  match pySplit '_' (some 2) s with
  | [d, t, st] =>
    let subcls :=
      match reg (d, some t, st) with
      | some c => c
      | Option.none =>
        match reg (d, Option.none, st) with
        | some c => c
        | Option.none => 0
    Except.ok (subcls, e)
  | _ => Except.error "ValueError: need more than 2 values to unpack"

/-- `Event.find_retired_entity`: the Shotgun client is an oracle mapping the
queried entity type and the event id used in the
`('$FROM$EventLogEntry.entity.id', 'is', self.id)` filter to `find_one`'s
result (`None` when there is no match).  Returns the value of
`self.entity` after the method together with the possibly-updated record. -/
def find_retired_entity (sg : String → PyVal → PyVal) (e : Event) :
    Except String (PyVal × Event) := do
  let e2 ←
    if truthy (get e "entity") then
      Except.ok e
    else do
      let et ← entity_type e
      let found := sg et (get e "id")
      if truthy found then
        Except.ok (PyDict.setVal e "entity" found)
      else do
        let idStr ← formatD (get e "id")
        Except.error ("could not find retired " ++ et ++ " for event " ++ idStr)
  Except.ok (get e2 "entity", e2)

/-- Python's `\w` character class as used (ASCII, no `re.UNICODE`). -/
def isWordChar (c : Char) : Bool := c.isAlphanum || c = '_'

/-- The character class `[\w\.]` from `get_func`'s first pattern. -/
def isWordDotChar (c : Char) : Bool := isWordChar c || c = '.'

/-- Split a character list at its last colon, if any: both of `get_func`'s
anchored patterns `([\w\.]+):([\w]+)$` and `(.+):([\w]+)$` force the
function-name group to follow the last colon of the string (the groups
before it cannot contain a colon in the first pattern, and `.+` is greedy
in the second). -/
def lastColonSplit : List Char → Option (List Char × List Char)
  | [] => Option.none
  | c :: cs =>
    match lastColonSplit cs with
    | some (p, f) => some (c :: p, f)
    | Option.none => if c = ':' then some ([], cs) else Option.none

/-- Python's `$` anchor (no `re.M`) matches at the end of the string or just
before one newline that ends the string.  Both of `get_func`'s patterns end
in `([\w]+)$` and `\w` excludes the newline, so they match `s` exactly when
they match `s` with a single trailing newline removed — which is what this
function removes. -/
def stripDollarNewline : List Char → List Char
  | [] => []
  | c :: cs =>
    match cs with
    | [] => if c = '\n' then [] else [c]
    | d :: ds => c :: stripDollarNewline (d :: ds)

/-- `re.match(r'([\w\.]+):([\w]+)$', s)`: module-path form (accepting one
trailing newline via `$`). -/
def matchModuleForm (s : String) : Option (String × String) :=
  match lastColonSplit (stripDollarNewline s.toList) with
  | some (p, f) =>
    if !p.isEmpty && p.all isWordDotChar && !f.isEmpty && f.all isWordChar then
      some (String.mk p, String.mk f)
    else
      Option.none
  | Option.none => Option.none

/-- `re.match(r'(.+):([\w]+)$', s)`: filesystem-path form (accepting one
trailing newline via `$`).  `.` does not match a newline in Python, hence
the newline exclusion on the path group. -/
def matchPathForm (s : String) : Option (String × String) :=
  match lastColonSplit (stripDollarNewline s.toList) with
  | some (p, f) =>
    if !p.isEmpty && p.all (fun c => c != '\n') && !f.isEmpty && f.all isWordChar then
      some (String.mk p, String.mk f)
    else
      Option.none
  | Option.none => Option.none

/-- The outcome of `get_func`: a non-string spec passed through unchanged, a
`module:func` spec resolved by import, or a `path:func` spec resolved by
ad-hoc file loading.  The actual import / attribute lookup is an external
effect and is not modelled; the result records which resolution the code
performs and with which parsed components. -/
inductive ResolvedSpec where
  | passthrough (v : PyVal)
  | byImport (modName funcName : String)
  | byPath (path funcName : String)

/-- The exact `ValueError` message raised by `get_func`; `%r` renders the
spec through py2 `repr` (quote selection and escaping as in `pyReprStr`). -/
def specErrMsg (s : String) : String :=
  "spec must be like \"/path/to/module.py:func_name\" or \"package.module:func_name\"; got "
    ++ pyReprStr s

/-- `get_func` from `utils.py`: non-strings pass through; the module form is
tried first; the path form applies only when the path portion contains a
slash; everything else raises the `ValueError` above. -/
def get_func (spec : PyVal) : Except String ResolvedSpec :=
  match spec with
  | PyVal.str s =>
    match matchModuleForm s with
    | some (m, f) => Except.ok (ResolvedSpec.byImport m f)
    | Option.none =>
      match matchPathForm s with
      | some (p, f) =>
        if p.toList.contains '/' then
          Except.ok (ResolvedSpec.byPath p f)
        else
          Except.error (specErrMsg s)
      | Option.none => Except.error (specErrMsg s)
  | v => Except.ok (ResolvedSpec.passthrough v)

/-- `re.sub('\W+', '_', ·)` on a character list: each maximal run of
non-word characters becomes a single underscore.  The flag records whether
the previous character belonged to such a run. -/
def squashAux : Bool → List Char → List Char
  | _, [] => []
  | inRun, c :: cs =>
    if isWordChar c then c :: squashAux false cs
    else if inRun then squashAux true cs
    else '_' :: squashAux true cs

/-- The variable name `prefix + '_' + re.sub('\W+', '_', k.upper())` built
by `envvars_for_event` for key `k` (py2 `str.upper` upper-cases ASCII
letters character by character). -/
def envKey (pfx k : String) : String :=
  pfx ++ "_" ++ String.mk (squashAux false (k.toList.map Char.toUpper))

/-- `envvars[k] = v` on the accumulating dict (overwrite or append). -/
def strSet : List (String × String) → String → String → List (String × String)
  | [], key, v => [(key, v)]
  | (k, w) :: rest, key, v =>
    if k = key then (k, v) :: rest else (k, w) :: strSet rest key v

/-- `envvars.update(new)`: set every entry of `new` in order. -/
def strUpdate (d : List (String × String)) (new : List (String × String)) :
    List (String × String) :=
  new.foldl (fun acc kv => strSet acc kv.1 kv.2) d

mutual

/-- One iteration of `envvars_for_event`'s loop body for value `v` under the
derived variable name `key`: recurse on dicts, `str(v)` otherwise. -/
def envvarsVal (v : PyVal) (key : String) (acc : List (String × String)) :
    List (String × String) :=
  match v with
  | PyVal.dict d => strUpdate acc (envvarsD d key [])
  | other => strSet acc key (pyStr other)

/-- The loop of `envvars_for_event` over the items of a dict, in insertion
order, threading the accumulating `envvars` dict. -/
def envvarsD : PyDict → String → List (String × String) → List (String × String)
  | PyDict.nil, _, acc => acc
  | PyDict.cons k0 v rest, pfx, acc =>
    envvarsD rest pfx (envvarsVal v (envKey pfx k0) acc)

end

/-- `envvars_for_event(event, prefix)` from `utils.py`; the source's default
for the second argument is `'SGEVENT'`. -/
def envvars_for_event (event : PyDict) (pfx : String) : List (String × String) :=
  envvarsD event pfx []

/-- Spec-side description of `re.sub('\W+', '_', ·)`: each maximal run of
non-word characters — consumed in one step by `dropWhile` — is replaced by
a single underscore.  Compared against the implementation-side flag-threaded
`squashAux` in the C6 theorem. -/
def squashSpec (l : List Char) : List Char :=
  match l with
  | [] => []
  | c :: cs =>
    if isWordChar c then c :: squashSpec cs
    else '_' :: squashSpec (cs.dropWhile (fun c2 => !isWordChar c2))
termination_by l.length
decreasing_by
  · simp [Nat.lt_succ_iff]
  · have := (List.dropWhile_sublist (l := cs) (fun c2 => !isWordChar c2)).length_le
    simp
    omega

mutual

/-- Spec-side description of the flattening (C6): the name/value pairs an
event produces, item by item — derive the variable name from the prefix and
the key, recurse into nested mappings with that name as the new prefix, and
render every leaf with `str` — without threading the accumulating `envvars`
dict through the loop.  The C6 theorem states that assigning these pairs in
order into an empty dict is exactly `envvars_for_event`. -/
def flatPairsVal (v : PyVal) (key : String) : List (String × String) :=
  match v with
  | PyVal.dict d => flatPairsD d key
  | other => [(key, pyStr other)]

def flatPairsD : PyDict → String → List (String × String)
  | PyDict.nil, _ => []
  | PyDict.cons k v rest, pfx =>
    flatPairsVal v (envKey pfx k) ++ flatPairsD rest pfx

end

/-- Overwrite the value at every occurrence of `key` without changing the
shape of the dict — the effect of `d[key] = v` when the key is present. -/
def mapSet (d : List (String × String)) (key v : String) : List (String × String) :=
  d.map (fun p => if p.1 = key then (key, v) else p)

/-- The keys of an accumulating `envvars` dict are distinct; every dict the
flattening builds satisfies this. -/
def keysNodup (d : List (String × String)) : Prop :=
  (d.map Prod.fst).Nodup

/-! ## Lemmas about `pySplitChars` -/

theorem pySplitChars_some_zero (sep : Char) (l : List Char) :
    pySplitChars sep (some 0) l = [l] := by
  cases l <;> rfl

theorem pySplitChars_no_sep (sep : Char) (l : List Char) (m : Option Nat)
    (h : sep ∉ l) : pySplitChars sep m l = [l] := by
  induction l generalizing m with
  | nil =>
    cases m with
    | none => rfl
    | some k => cases k <;> rfl
  | cons c cs ih =>
    have hc : ¬(c = sep) := fun hcc => h (hcc ▸ List.mem_cons_self c cs)
    have hcs : sep ∉ cs := fun hm => h (List.mem_cons_of_mem _ hm)
    cases m with
    | none => simp [pySplitChars, hc, ih Option.none hcs]
    | some k =>
      cases k with
      | zero => rfl
      | succ k => simp [pySplitChars, hc, ih (some (k + 1)) hcs]

theorem pySplitChars_seam (sep : Char) (p : List Char) (hp : sep ∉ p) :
    ∀ (m : Option Nat), m ≠ some 0 → ∀ rest : List Char,
      pySplitChars sep m (p ++ sep :: rest)
        = p :: pySplitChars sep (m.map (fun k => k - 1)) rest := by
  induction p with
  | nil =>
    intro m hm rest
    cases m with
    | none => simp [pySplitChars]
    | some k =>
      cases k with
      | zero => exact absurd rfl hm
      | succ k => simp [pySplitChars]
  | cons c cs ih =>
    intro m hm rest
    have hc : ¬(c = sep) := fun hcc => hp (hcc ▸ List.mem_cons_self c cs)
    have hcs : sep ∉ cs := fun hmem => hp (List.mem_cons_of_mem _ hmem)
    have ihr := ih hcs m hm rest
    cases m with
    | none => simp [pySplitChars, hc, List.cons_append, ihr]
    | some k =>
      cases k with
      | zero => exact absurd rfl hm
      | succ k => simp [pySplitChars, hc, List.cons_append, ihr]

theorem toList_two_seams (a b c : String) :
    (a ++ "_" ++ b ++ "_" ++ c).toList
      = a.toList ++ '_' :: (b.toList ++ '_' :: c.toList) := by
  show (a ++ "_" ++ b ++ "_" ++ c).data = a.data ++ '_' :: (b.data ++ '_' :: c.data)
  simp [String.data_append]

theorem pySplit_limited_three (a b c : String)
    (ha : '_' ∉ a.toList) (hb : '_' ∉ b.toList) :
    pySplit '_' (some 2) (a ++ "_" ++ b ++ "_" ++ c) = [a, b, c] := by
  unfold pySplit
  rw [toList_two_seams,
    pySplitChars_seam '_' a.toList ha (some 2) (by simp),
    show Option.map (fun k => k - 1) (some 2) = some 1 from rfl,
    pySplitChars_seam '_' b.toList hb (some 1) (by simp),
    show Option.map (fun k => k - 1) (some 1) = some 0 from rfl,
    pySplitChars_some_zero]
  rfl

theorem pySplit_unlimited_seams (a b c : String)
    (ha : '_' ∉ a.toList) (hb : '_' ∉ b.toList) :
    pySplit '_' Option.none (a ++ "_" ++ b ++ "_" ++ c)
      = a :: b :: (pySplitChars '_' Option.none c.toList).map String.mk := by
  unfold pySplit
  rw [toList_two_seams,
    pySplitChars_seam '_' a.toList ha Option.none (by simp),
    show Option.map (fun k : Nat => k - 1) Option.none = Option.none from rfl,
    pySplitChars_seam '_' b.toList hb Option.none (by simp),
    show Option.map (fun k : Nat => k - 1) Option.none = Option.none from rfl]
  rfl

theorem pySplitChars_ne_nil (sep : Char) (m : Option Nat) (l : List Char) :
    pySplitChars sep m l ≠ [] := by
  cases l with
  | nil =>
    cases m with
    | none => simp [pySplitChars]
    | some k => cases k <;> simp [pySplitChars]
  | cons c cs =>
    cases m with
    | none =>
      by_cases hc : c = sep
      · simp [pySplitChars, hc]
      · simp only [pySplitChars, hc, if_false]
        cases h : pySplitChars sep Option.none cs <;> simp
    | some k =>
      cases k with
      | zero => simp [pySplitChars]
      | succ k =>
        by_cases hc : c = sep
        · simp [pySplitChars, hc]
        · simp only [pySplitChars, hc, if_false]
          cases h : pySplitChars sep (some (k + 1)) cs <;> simp

/-- Definitional reduction of the `Except` monad's bind on a success. -/
theorem exceptOkBind {α β : Type} (a : α) (f : α → Except String β) :
    (Except.ok a : Except String α) >>= f = f a := rfl

/-- Definitional reduction of the `Except` monad's bind on an error. -/
theorem exceptErrBind {α β : Type} (m : String) (f : α → Except String β) :
    (Except.error m : Except String α) >>= f = Except.error m := rfl

/-! ## C2 -/

/-- C2: for an `event_type` of shape `domain_entityType_subtype` — at least
three underscore-delimited segments, the first two being underscore-free —
`domain` is the first segment (limited split, index 0), `entity_type` is
the second token of the simple unlimited split, and `subtype` is the whole
remainder after the first two tokens of the 3-part limited split, so
underscores inside the third segment are preserved. -/
theorem domain_entityType_subtype_of_three_segments (e : Event) (a b c : String)
    (ha : '_' ∉ a.toList) (hb : '_' ∉ b.toList)
    (he : PyDict.lookup e "event_type" = some (PyVal.str (a ++ "_" ++ b ++ "_" ++ c))) :
    domain e = Except.ok a ∧ entity_type e = Except.ok b ∧ subtype e = Except.ok c := by
  have hlim := pySplit_limited_three a b c ha hb
  have hunlim := pySplit_unlimited_seams a b c ha hb
  refine ⟨?_, ?_, ?_⟩
  · simp [domain, get, he, asSplittable, exceptOkBind, hlim, listIndex]
  · simp [entity_type, get, he, asSplittable, exceptOkBind, hunlim, listIndex]
  · simp [subtype, get, he, asSplittable, exceptOkBind, hlim, listIndex]

/-- C2 witness at the spec's example `"Shotgun_Shot_Change"`. -/
theorem domain_entityType_subtype_witness :
    domain (PyDict.cons "event_type" (PyVal.str "Shotgun_Shot_Change") PyDict.nil)
        = Except.ok "Shotgun"
      ∧ entity_type (PyDict.cons "event_type" (PyVal.str "Shotgun_Shot_Change") PyDict.nil)
        = Except.ok "Shot"
      ∧ subtype (PyDict.cons "event_type" (PyVal.str "Shotgun_Shot_Change") PyDict.nil)
        = Except.ok "Change" :=
  domain_entityType_subtype_of_three_segments
    (PyDict.cons "event_type" (PyVal.str "Shotgun_Shot_Change") PyDict.nil)
    "Shotgun" "Shot" "Change" (by decide) (by decide) rfl

/-! ## C1 -/

theorem hasKey_of_lookup (d : PyDict) (k : String) (v : PyVal)
    (h : PyDict.lookup d k = some v) : PyDict.hasKey d k = true := by
  match d with
  | PyDict.nil => simp [PyDict.lookup] at h
  | PyDict.cons k0 v0 rest =>
    by_cases hk : k0 = k
    · simp [PyDict.hasKey, hk]
    · simp only [PyDict.lookup, hk, if_false] at h
      simp [PyDict.hasKey, hk, hasKey_of_lookup rest k v h]

/-- C1 (amended): `entity_id` follows the spec's algorithm whenever `meta` is
present as a mapping: a truthy `entity` yields its `id`; otherwise a
`meta` containing `entity_id` yields that value, except that a `"Change"`
subtype with `actual_attribute_changed` also in `meta` yields absent; a
`meta` without `entity_id` yields absent.  But when `meta` itself is
absent, the property raises a `TypeError` (`'entity_id' in None`) instead
of returning absent. -/
theorem entity_id_algorithm (e : Event) :
    (∀ v, truthy (get e "entity") = true →
        pyGetItem (get e "entity") "id" = Except.ok v →
        entity_id e = Except.ok v)
  ∧ (∀ md, truthy (get e "entity") = false →
        get e "meta" = PyVal.dict md →
        PyDict.hasKey md "entity_id" = true →
        subtype e = Except.ok "Change" →
        PyDict.hasKey md "actual_attribute_changed" = true →
        entity_id e = Except.ok PyVal.none)
  ∧ (∀ md st v, truthy (get e "entity") = false →
        get e "meta" = PyVal.dict md →
        PyDict.lookup md "entity_id" = some v →
        subtype e = Except.ok st →
        (st = "Change" → PyDict.hasKey md "actual_attribute_changed" = false) →
        entity_id e = Except.ok v)
  ∧ (∀ md, truthy (get e "entity") = false →
        get e "meta" = PyVal.dict md →
        PyDict.hasKey md "entity_id" = false →
        entity_id e = Except.ok PyVal.none)
  ∧ (truthy (get e "entity") = false →
        get e "meta" = PyVal.none →
        entity_id e = Except.error "TypeError: argument is not iterable") := by
  refine ⟨?_, ?_, ?_, ?_, ?_⟩
  · intro v htr hid
    simp [entity_id, htr, hid]
  · intro md htr hmeta hkey hsub hact
    simp [entity_id, htr, hmeta, pyContains, hkey, exceptOkBind, hsub, hact]
  · intro md st v htr hmeta hlook hsub hact
    have hkey := hasKey_of_lookup md "entity_id" v hlook
    by_cases hst : st = "Change"
    · simp [entity_id, htr, hmeta, pyContains, hkey, exceptOkBind, hsub, hst,
        hact hst, pyGetItem, hlook]
    · simp [entity_id, htr, hmeta, pyContains, hkey, exceptOkBind, hsub, hst,
        pyGetItem, hlook]
  · intro md htr hmeta hkey
    simp [entity_id, htr, hmeta, pyContains, hkey, exceptOkBind]
  · intro htr hmeta
    simp [entity_id, htr, hmeta, pyContains, exceptErrBind]

/-- C1 counterexample: the claim states that when `meta` is absent (and no
`entity` is present) `entity_id` returns absent; on the record
`{'event_type': 'Shotgun_Shot_New'}` the code instead evaluates
`'entity_id' in None` and raises a `TypeError`, so the result is not
`Ok None`. -/
theorem entity_id_meta_absent_counterexample :
    entity_id (PyDict.cons "event_type" (PyVal.str "Shotgun_Shot_New") PyDict.nil)
      ≠ Except.ok PyVal.none := by
  have h : entity_id (PyDict.cons "event_type" (PyVal.str "Shotgun_Shot_New") PyDict.nil)
      = Except.error "TypeError: argument is not iterable" := rfl
  rw [h]
  simp

/-- C1 witness: the spec's own example — `meta = {'entity_id': 42,
'actual_attribute_changed': 'sg_status'}`, subtype `"Change"`, no entity —
yields absent (not 42). -/
theorem entity_id_algorithm_witness :
    entity_id (PyDict.cons "event_type" (PyVal.str "Shotgun_Shot_Change")
        (PyDict.cons "meta" (PyVal.dict (PyDict.cons "entity_id" (PyVal.int 42)
          (PyDict.cons "actual_attribute_changed" (PyVal.str "sg_status") PyDict.nil)))
          PyDict.nil))
      = Except.ok PyVal.none :=
  (entity_id_algorithm
      (PyDict.cons "event_type" (PyVal.str "Shotgun_Shot_Change")
        (PyDict.cons "meta" (PyVal.dict (PyDict.cons "entity_id" (PyVal.int 42)
          (PyDict.cons "actual_attribute_changed" (PyVal.str "sg_status") PyDict.nil)))
          PyDict.nil))).2.1
    (PyDict.cons "entity_id" (PyVal.int 42)
      (PyDict.cons "actual_attribute_changed" (PyVal.str "sg_status") PyDict.nil))
    rfl rfl rfl rfl rfl

/-! ## C3 -/

/-- C3: the factory splits `raw['event_type']` on underscore into at most 3
parts; with exactly three parts it instantiates the registry's exact
`(domain, entityType, subtype)` entry if any, else the
`(domain, None, subtype)` entry, else the base class (tag `0`), carrying
the raw mapping; with the key absent it fails with a key-lookup error; with
fewer than three parts it fails with a value-unpacking error. -/
theorem factory_algorithm (reg : String × Option String × String → Option Nat) (e : Event) :
    (∀ s d t st, PyDict.lookup e "event_type" = some (PyVal.str s) →
        pySplit '_' (some 2) s = [d, t, st] →
        factory reg e
          = Except.ok ((reg (d, some t, st)).getD ((reg (d, Option.none, st)).getD 0), e))
  ∧ (PyDict.lookup e "event_type" = Option.none →
        factory reg e = Except.error "KeyError: event_type")
  ∧ (∀ s, PyDict.lookup e "event_type" = some (PyVal.str s) →
        (pySplit '_' (some 2) s).length < 3 →
        factory reg e = Except.error "ValueError: need more than 2 values to unpack") := by
  refine ⟨?_, ?_, ?_⟩
  · intro s d t st he hsplit
    simp only [factory, he, asSplittable, exceptOkBind, hsplit]
    cases h1 : reg (d, some t, st) with
    | some c => simp [h1]
    | none =>
      cases h2 : reg (d, Option.none, st) with
      | some c => simp [h1, h2]
      | none => simp [h1, h2]
  · intro he
    simp [factory, he, exceptErrBind]
  · intro s he hlen
    simp only [factory, he, asSplittable, exceptOkBind]
    generalize hl : pySplit '_' (some 2) s = l at hlen
    rcases l with _ | ⟨x, _ | ⟨y, _ | ⟨z, rest⟩⟩⟩
    · rfl
    · rfl
    · rfl
    · simp [List.length_cons] at hlen
      omega

/-- C3 witness, the spec's fallback scenario: only the entity-type-agnostic
`("Shotgun", None, "Change")` specialization (tag `1`) is registered, and
the factory applied to an event of type `"Shotgun_Shot_Change"` picks it. -/
theorem factory_algorithm_witness :
    factory (fun k => if k = ("Shotgun", Option.none, "Change") then some 1 else Option.none)
        (PyDict.cons "event_type" (PyVal.str "Shotgun_Shot_Change") PyDict.nil)
      = Except.ok (1, PyDict.cons "event_type" (PyVal.str "Shotgun_Shot_Change") PyDict.nil) :=
  (factory_algorithm
      (fun k => if k = ("Shotgun", Option.none, "Change") then some 1 else Option.none)
      (PyDict.cons "event_type" (PyVal.str "Shotgun_Shot_Change") PyDict.nil)).1
    "Shotgun_Shot_Change" "Shotgun" "Shot" "Change" rfl (by decide)

/-! ## C4 -/

/-- C4: `summary` starts with `type`; with a (truthy) entity carrying
`type`/`id`/a non-empty `name` and likewise a user, it is the space-joined
string `{type} on {entityType}:{entityId} ("{entityName}") by
{userType}:{userId} ("{userName}")`, using the entity's own type and id;
without an entity it appends `on {entity_type}:{entity_id}` from the
derived entity type and the computed (truthy) entity id instead. -/
theorem summary_entity_user (e : Event) :
    (∀ (t eT eN uT uN : String) (eI uI : Int),
        PyDict.lookup e "event_type" = some (PyVal.str t) →
        PyDict.lookup e "entity" = some (PyVal.dict (PyDict.cons "type" (PyVal.str eT)
          (PyDict.cons "id" (PyVal.int eI) (PyDict.cons "name" (PyVal.str eN) PyDict.nil)))) →
        eN ≠ "" →
        PyDict.lookup e "user" = some (PyVal.dict (PyDict.cons "type" (PyVal.str uT)
          (PyDict.cons "id" (PyVal.int uI) (PyDict.cons "name" (PyVal.str uN) PyDict.nil)))) →
        uN ≠ "" →
        summary e = Except.ok (t ++ " on " ++ eT ++ ":" ++ toString eI
          ++ " (\"" ++ eN ++ "\") by " ++ uT ++ ":" ++ toString uI ++ " (\"" ++ uN ++ "\")"))
  ∧ (∀ (t et : String) (v : PyVal),
        get e "event_type" = PyVal.str t →
        truthy (get e "entity") = false →
        truthy (get e "user") = false →
        entity_type e = Except.ok et →
        entity_id e = Except.ok v →
        truthy v = true →
        summary e = Except.ok (t ++ " on " ++ et ++ ":" ++ pyStr v)) := by
  constructor
  · intro t eT eN uT uN eI uI ht hent hn hu hun
    simp [summary, eventType, get, ht, hent, hu, truthy, pyGetItem, PyDict.lookup,
      pyMethodGet, formatD, pyStr, exceptOkBind, exceptErrBind, hn, hun, strOnly,
      joinParts, partsToStrs, joinSpaceStr, String.append_assoc]
    rfl
  · intro t et v ht hent hu het hid hv
    simp [summary, eventType, ht, hent, hu, het, hid, hv, exceptOkBind, exceptErrBind,
      strOnly, joinParts, partsToStrs, joinSpaceStr, String.append_assoc]
    rfl

/-- C4 witness at the spec's example entity `Shot:7 "Bunny_010"` and user
`HumanUser:3 "Alice"`. -/
theorem summary_entity_user_witness :
    summary (PyDict.cons "event_type" (PyVal.str "Shotgun_Shot_Change")
        (PyDict.cons "entity" (PyVal.dict (PyDict.cons "type" (PyVal.str "Shot")
            (PyDict.cons "id" (PyVal.int 7) (PyDict.cons "name" (PyVal.str "Bunny_010") PyDict.nil))))
          (PyDict.cons "user" (PyVal.dict (PyDict.cons "type" (PyVal.str "HumanUser")
            (PyDict.cons "id" (PyVal.int 3) (PyDict.cons "name" (PyVal.str "Alice") PyDict.nil))))
            PyDict.nil)))
      = Except.ok "Shotgun_Shot_Change on Shot:7 (\"Bunny_010\") by HumanUser:3 (\"Alice\")" := by
  have h := (summary_entity_user
      (PyDict.cons "event_type" (PyVal.str "Shotgun_Shot_Change")
        (PyDict.cons "entity" (PyVal.dict (PyDict.cons "type" (PyVal.str "Shot")
            (PyDict.cons "id" (PyVal.int 7) (PyDict.cons "name" (PyVal.str "Bunny_010") PyDict.nil))))
          (PyDict.cons "user" (PyVal.dict (PyDict.cons "type" (PyVal.str "HumanUser")
            (PyDict.cons "id" (PyVal.int 3) (PyDict.cons "name" (PyVal.str "Alice") PyDict.nil))))
            PyDict.nil)))).1
    "Shotgun_Shot_Change" "Shot" "Bunny_010" "HumanUser" "Alice" 7 3
    rfl rfl (by decide) rfl (by decide)
  exact h

/-! ## C9 -/

/-- C9: when no truthy entity is present and the computed `entity_id`
succeeds with any falsy value (such as `0`), `summary` renders the entity
segment as `on {entity_type}:unknown` — the `or 'unknown'` fallback
substitutes for every falsy id, not only an absent one.  (User segment
absent to pin down the full string.) -/
theorem summary_falsy_entity_id_unknown (e : Event) (t et : String) (v : PyVal)
    (ht : get e "event_type" = PyVal.str t)
    (hent : truthy (get e "entity") = false)
    (hu : truthy (get e "user") = false)
    (het : entity_type e = Except.ok et)
    (hid : entity_id e = Except.ok v)
    (hv : truthy v = false) :
    summary e = Except.ok (t ++ " on " ++ et ++ ":unknown") := by
  simp [summary, eventType, ht, hent, hu, het, hid, hv, exceptOkBind, exceptErrBind,
    pyStr, strOnly, joinParts, partsToStrs, joinSpaceStr, String.append_assoc]
  rfl

/-- C9 witness: `meta = {'entity_id': 0}` on a `"New"`-subtype event with no
entity computes `entity_id = 0`, which is falsy, and `summary` shows
`unknown` instead of `0`. -/
theorem summary_falsy_entity_id_unknown_witness :
    summary (PyDict.cons "event_type" (PyVal.str "Shotgun_Shot_New")
        (PyDict.cons "meta" (PyVal.dict (PyDict.cons "entity_id" (PyVal.int 0) PyDict.nil))
          PyDict.nil))
      = Except.ok "Shotgun_Shot_New on Shot:unknown" :=
  summary_falsy_entity_id_unknown
    (PyDict.cons "event_type" (PyVal.str "Shotgun_Shot_New")
      (PyDict.cons "meta" (PyVal.dict (PyDict.cons "entity_id" (PyVal.int 0) PyDict.nil))
        PyDict.nil))
    "Shotgun_Shot_New" "Shot" (PyVal.int 0) rfl rfl rfl rfl rfl rfl

/-! ## C6

The flattening loop of `envvars_for_event` threads the accumulating
`envvars` dict through every item and through nested recursion; the lemmas
here develop enough algebra of dict assignment (`strSet`/`strUpdate`) to
prove it equal to the spec's compositional description `flatPairsD`. -/

theorem mapSet_eq_of_not_mem (d : List (String × String)) (key v : String)
    (h : ¬ key ∈ d.map Prod.fst) : mapSet d key v = d := by
  induction d with
  | nil => rfl
  | cons q rest ih =>
    have hq : ¬(q.1 = key) := fun he => h (by simp [← he])
    have hrest : ¬ key ∈ rest.map Prod.fst := fun hm => h (by simp [hm])
    show (if q.1 = key then (key, v) else q) :: mapSet rest key v = q :: rest
    rw [if_neg hq, ih hrest]

theorem keys_mapSet (d : List (String × String)) (key v : String) :
    (mapSet d key v).map Prod.fst = d.map Prod.fst := by
  induction d with
  | nil => rfl
  | cons q rest ih =>
    show (if q.1 = key then (key, v) else q).1 :: (mapSet rest key v).map Prod.fst
        = q.1 :: rest.map Prod.fst
    by_cases hq : q.1 = key
    · rw [if_pos hq, ih, hq]
    · rw [if_neg hq, ih]

theorem mapSet_mapSet (d : List (String × String)) (key v w : String) :
    mapSet (mapSet d key w) key v = mapSet d key v := by
  induction d with
  | nil => rfl
  | cons q rest ih =>
    show (if (if q.1 = key then (key, w) else q).1 = key then (key, v)
          else if q.1 = key then (key, w) else q) :: mapSet (mapSet rest key w) key v
        = (if q.1 = key then (key, v) else q) :: mapSet rest key v
    by_cases hq : q.1 = key
    · simp [hq, ih]
    · simp [hq, ih]

theorem strSet_eq_append_of_not_mem (d : List (String × String)) (key v : String)
    (h : ¬ key ∈ d.map Prod.fst) : strSet d key v = d ++ [(key, v)] := by
  induction d with
  | nil => rfl
  | cons q rest ih =>
    rcases q with ⟨k0, w0⟩
    have hq : ¬(k0 = key) := fun he => h (by simp [he])
    have hrest : ¬ key ∈ rest.map Prod.fst := fun hm => h (by simp [hm])
    simp [strSet, hq, ih hrest]

theorem strSet_eq_mapSet (d : List (String × String)) (key v : String)
    (hnd : keysNodup d) (h : key ∈ d.map Prod.fst) :
    strSet d key v = mapSet d key v := by
  induction d with
  | nil => simp at h
  | cons q rest ih =>
    rcases q with ⟨k0, w0⟩
    simp only [keysNodup, List.map_cons, List.nodup_cons] at hnd
    by_cases hq : k0 = key
    · subst hq
      show (if k0 = k0 then (k0, v) :: rest else (k0, w0) :: strSet rest k0 v)
          = (if k0 = k0 then (k0, v) else (k0, w0)) :: mapSet rest k0 v
      rw [if_pos rfl, if_pos rfl, mapSet_eq_of_not_mem rest k0 v hnd.1]
    · have hmem : key ∈ rest.map Prod.fst := by
        rcases List.mem_cons.mp h with h1 | h1
        · exact absurd h1.symm hq
        · exact h1
      show (if k0 = key then (k0, v) :: rest else (k0, w0) :: strSet rest key v)
          = (if k0 = key then (key, v) else (k0, w0)) :: mapSet rest key v
      rw [if_neg hq, if_neg hq, ih hnd.2 hmem]

theorem keysNodup_strSet (d : List (String × String)) (key v : String)
    (hnd : keysNodup d) : keysNodup (strSet d key v) := by
  by_cases h : key ∈ d.map Prod.fst
  · show ((strSet d key v).map Prod.fst).Nodup
    rw [strSet_eq_mapSet d key v hnd h, keys_mapSet]
    exact hnd
  · show ((strSet d key v).map Prod.fst).Nodup
    rw [strSet_eq_append_of_not_mem d key v h]
    simp only [List.map_append, List.map_cons, List.map_nil]
    exact List.Nodup.append hnd (List.nodup_singleton key)
      (by simpa [List.disjoint_singleton] using h)

theorem keysNodup_strUpdate (d ps : List (String × String))
    (hnd : keysNodup d) : keysNodup (strUpdate d ps) := by
  induction ps generalizing d with
  | nil => exact hnd
  | cons p rest ih => exact ih (strSet d p.1 p.2) (keysNodup_strSet d p.1 p.2 hnd)

theorem mem_keys_strSet_self (d : List (String × String)) (key v : String) :
    key ∈ (strSet d key v).map Prod.fst := by
  induction d with
  | nil => simp [strSet]
  | cons q rest ih =>
    rcases q with ⟨k0, w0⟩
    by_cases hq : k0 = key
    · simp [strSet, hq]
    · simp only [strSet, hq, if_false, List.map_cons, List.mem_cons]
      exact Or.inr ih

theorem mem_keys_strSet_of_mem (d : List (String × String)) (key v key2 : String)
    (h : key2 ∈ d.map Prod.fst) : key2 ∈ (strSet d key v).map Prod.fst := by
  induction d with
  | nil => simp at h
  | cons q rest ih =>
    rcases q with ⟨k0, w0⟩
    rcases List.mem_cons.mp h with h1 | h1
    · by_cases hq : k0 = key
      · simp [strSet, hq, h1]
      · simp only [strSet, hq, if_false, List.map_cons, List.mem_cons]
        exact Or.inl h1
    · by_cases hq : k0 = key
      · simp only [strSet, hq, if_true, List.map_cons, List.mem_cons]
        exact Or.inr h1
      · simp only [strSet, hq, if_false, List.map_cons, List.mem_cons]
        exact Or.inr (ih h1)

theorem mem_keys_strUpdate_of_mem (d ps : List (String × String)) (key2 : String)
    (h : key2 ∈ d.map Prod.fst) : key2 ∈ (strUpdate d ps).map Prod.fst := by
  induction ps generalizing d with
  | nil => exact h
  | cons p rest ih => exact ih (strSet d p.1 p.2) (mem_keys_strSet_of_mem d p.1 p.2 key2 h)

theorem mapSet_strSet_comm (d : List (String × String)) (key v key2 w : String)
    (hne : ¬(key2 = key)) :
    strSet (mapSet d key v) key2 w = mapSet (strSet d key2 w) key v := by
  induction d with
  | nil =>
    show strSet [] key2 w = mapSet [(key2, w)] key v
    simp [strSet, mapSet, fun he => hne (by simpa using he)]
  | cons q rest ih =>
    by_cases hq2 : q.1 = key2
    · have hq : ¬(q.1 = key) := fun he => hne (he ▸ hq2.symm ▸ rfl)
      show strSet ((if q.1 = key then (key, v) else q) :: mapSet rest key v) key2 w
          = mapSet (if q.1 = key2 then (q.1, w) :: rest else q :: strSet rest key2 w) key v
      rw [if_neg hq, if_pos hq2]
      show (if q.1 = key2 then (q.1, w) :: mapSet rest key v
            else q :: strSet (mapSet rest key v) key2 w)
          = (if q.1 = key then (key, v) else (q.1, w)) :: mapSet rest key v
      rw [if_pos hq2, if_neg hq]
    · show strSet ((if q.1 = key then (key, v) else q) :: mapSet rest key v) key2 w
          = mapSet (if q.1 = key2 then (q.1, w) :: rest else q :: strSet rest key2 w) key v
      rw [if_neg hq2]
      by_cases hq : q.1 = key
      · rw [if_pos hq]
        show (if key = key2 then (key, w) :: mapSet rest key v
              else (key, v) :: strSet (mapSet rest key v) key2 w)
            = (if q.1 = key then (key, v) else q) :: mapSet (strSet rest key2 w) key v
        rw [if_neg (fun he => hne (he.symm)), if_pos hq, ih]
      · rw [if_neg hq]
        show (if q.1 = key2 then (q.1, w) :: mapSet rest key v
              else q :: strSet (mapSet rest key v) key2 w)
            = (if q.1 = key then (key, v) else q) :: mapSet (strSet rest key2 w) key v
        rw [if_neg hq2, if_neg hq, ih]

theorem strUpdate_mapSet (ps : List (String × String)) (d : List (String × String))
    (key v : String) (h : ¬ key ∈ ps.map Prod.fst) :
    strUpdate (mapSet d key v) ps = mapSet (strUpdate d ps) key v := by
  induction ps generalizing d with
  | nil => rfl
  | cons p rest ih =>
    have hp : ¬(p.1 = key) := fun he => h (by simp [← he])
    have hrest : ¬ key ∈ rest.map Prod.fst := fun hm => h (by simp [hm])
    show strUpdate (strSet (mapSet d key v) p.1 p.2) rest
        = mapSet (strUpdate (strSet d p.1 p.2) rest) key v
    rw [mapSet_strSet_comm d key v p.1 p.2 hp, ih (strSet d p.1 p.2) hrest]

theorem exists_split_of_mem_keys (d : List (String × String)) (key : String)
    (h : key ∈ d.map Prod.fst) :
    ∃ d1 w d2, d = d1 ++ (key, w) :: d2 ∧ ¬ key ∈ d1.map Prod.fst := by
  induction d with
  | nil => simp at h
  | cons q rest ih =>
    by_cases hq : q.1 = key
    · refine ⟨[], q.2, rest, ?_, by simp⟩
      simp [← hq]
    · have hmem : key ∈ rest.map Prod.fst := by
        rcases List.mem_cons.mp h with h1 | h1
        · exact absurd h1.symm hq
        · exact h1
      obtain ⟨d1, w, d2, heq, hnm⟩ := ih hmem
      refine ⟨q :: d1, w, d2, by simp [heq], ?_⟩
      simp only [List.map_cons, List.mem_cons, not_or]
      exact ⟨fun he => hq he.symm, hnm⟩

theorem strSet_on_split (d1 d2 : List (String × String)) (key w v : String)
    (h : ¬ key ∈ d1.map Prod.fst) :
    strSet (d1 ++ (key, w) :: d2) key v = d1 ++ (key, v) :: d2 := by
  induction d1 with
  | nil => simp [strSet]
  | cons q rest ih =>
    rcases q with ⟨k0, w0⟩
    have hq : ¬(k0 = key) := fun he => h (by simp [he])
    have hrest : ¬ key ∈ rest.map Prod.fst := fun hm => h (by simp [hm])
    simp [strSet, hq, ih hrest]

theorem strUpdate_append (d ps qs : List (String × String)) :
    strUpdate d (ps ++ qs) = strUpdate (strUpdate d ps) qs :=
  List.foldl_append _ _ _ _

theorem strUpdate_strSet_avoid (D2 A : List (String × String)) (key v w : String)
    (hnd : keysNodup A) (h2 : ¬ key ∈ D2.map Prod.fst) :
    strUpdate (strSet A key v) D2 = strSet (strUpdate (strSet A key w) D2) key v := by
  have hkey : strSet A key v = mapSet (strSet A key w) key v := by
    by_cases hm : key ∈ A.map Prod.fst
    · rw [strSet_eq_mapSet A key v hnd hm, strSet_eq_mapSet A key w hnd hm,
        mapSet_mapSet]
    · rw [strSet_eq_append_of_not_mem A key v hm, strSet_eq_append_of_not_mem A key w hm]
      show A ++ [(key, v)] = (A ++ [(key, w)]).map _
      rw [List.map_append]
      show A ++ [(key, v)] = mapSet A key v ++ mapSet [(key, w)] key v
      rw [mapSet_eq_of_not_mem A key v hm]
      simp [mapSet]
  rw [hkey, strUpdate_mapSet D2 (strSet A key w) key v h2,
    ← strSet_eq_mapSet (strUpdate (strSet A key w) D2) key v
      (keysNodup_strUpdate _ D2 (keysNodup_strSet A key w hnd))
      (mem_keys_strUpdate_of_mem _ D2 key (mem_keys_strSet_self A key w))]

theorem strUpdate_strSet (D acc : List (String × String)) (key v : String)
    (hndD : keysNodup D) (hndacc : keysNodup acc) :
    strUpdate acc (strSet D key v) = strSet (strUpdate acc D) key v := by
  by_cases hm : key ∈ D.map Prod.fst
  · obtain ⟨D1, w, D2, heq, hnm1⟩ := exists_split_of_mem_keys D key hm
    subst heq
    have hnm2 : ¬ key ∈ D2.map Prod.fst := by
      have := hndD
      simp only [keysNodup, List.map_append, List.map_cons] at this
      have h3 := (List.nodup_append.mp this).2.1
      exact (List.nodup_cons.mp h3).1
    rw [strSet_on_split D1 D2 key w v hnm1,
      show D1 ++ (key, v) :: D2 = (D1 ++ [(key, v)]) ++ D2 by simp,
      show D1 ++ (key, w) :: D2 = (D1 ++ [(key, w)]) ++ D2 by simp,
      strUpdate_append acc (D1 ++ [(key, v)]) D2,
      strUpdate_append acc (D1 ++ [(key, w)]) D2,
      strUpdate_append acc D1 [(key, v)],
      strUpdate_append acc D1 [(key, w)]]
    show strUpdate (strSet (strUpdate acc D1) key v) D2
        = strSet (strUpdate (strSet (strUpdate acc D1) key w) D2) key v
    exact strUpdate_strSet_avoid D2 (strUpdate acc D1) key v w
      (keysNodup_strUpdate acc D1 hndacc) hnm2
  · rw [strSet_eq_append_of_not_mem D key v hm, strUpdate_append acc D [(key, v)]]
    rfl

theorem strUpdate_strUpdate (ps Q acc : List (String × String))
    (hndQ : keysNodup Q) (hndacc : keysNodup acc) :
    strUpdate acc (strUpdate Q ps) = strUpdate (strUpdate acc Q) ps := by
  induction ps generalizing Q with
  | nil => rfl
  | cons p rest ih =>
    show strUpdate acc (strUpdate (strSet Q p.1 p.2) rest)
        = strUpdate (strSet (strUpdate acc Q) p.1 p.2) rest
    rw [ih (strSet Q p.1 p.2) (keysNodup_strSet Q p.1 p.2 hndQ),
      strUpdate_strSet Q acc p.1 p.2 hndQ hndacc]

theorem strUpdate_empty_collapse (ps acc : List (String × String))
    (hnd : keysNodup acc) : strUpdate acc (strUpdate [] ps) = strUpdate acc ps := by
  have h := strUpdate_strUpdate ps [] acc (by simp [keysNodup]) hnd
  simpa using h

mutual

theorem envvarsVal_eq_flat (v : PyVal) (key : String) (acc : List (String × String))
    (hnd : keysNodup acc) : envvarsVal v key acc = strUpdate acc (flatPairsVal v key) := by
  match v with
  | PyVal.dict d =>
    show strUpdate acc (envvarsD d key []) = strUpdate acc (flatPairsD d key)
    rw [envvarsD_eq_flat d key [] (by simp [keysNodup]),
      strUpdate_empty_collapse (flatPairsD d key) acc hnd]
  | PyVal.none => rfl
  | PyVal.int n => rfl
  | PyVal.str s => rfl

theorem envvarsD_eq_flat (d : PyDict) (pfx : String) (acc : List (String × String))
    (hnd : keysNodup acc) : envvarsD d pfx acc = strUpdate acc (flatPairsD d pfx) := by
  match d with
  | PyDict.nil => rfl
  | PyDict.cons k0 v rest =>
    show envvarsD rest pfx (envvarsVal v (envKey pfx k0) acc)
        = strUpdate acc (flatPairsVal v (envKey pfx k0) ++ flatPairsD rest pfx)
    have h1 := envvarsVal_eq_flat v (envKey pfx k0) acc hnd
    have hnd2 : keysNodup (envvarsVal v (envKey pfx k0) acc) := by
      rw [h1]
      exact keysNodup_strUpdate acc _ hnd
    rw [envvarsD_eq_flat rest pfx _ hnd2, h1, strUpdate_append]

end

theorem squashAux_true_eq (l : List Char) :
    squashAux true l = squashAux false (l.dropWhile (fun c2 => !isWordChar c2)) := by
  induction l with
  | nil => rfl
  | cons c cs ih =>
    by_cases hc : isWordChar c = true
    · simp [squashAux, hc, List.dropWhile_cons]
    · simp [squashAux, hc, List.dropWhile_cons, ih]

theorem squashAux_eq_squashSpec (l : List Char) : squashAux false l = squashSpec l := by
  match l with
  | [] => simp [squashAux, squashSpec]
  | c :: cs =>
    by_cases hc : isWordChar c = true
    · have h := squashAux_eq_squashSpec cs
      simp [squashAux, squashSpec, hc, h]
    · have h := squashAux_eq_squashSpec (cs.dropWhile (fun c2 => !isWordChar c2))
      simp [squashAux, squashSpec, hc, squashAux_true_eq cs, h]
termination_by l.length
decreasing_by
  · simp
  · have := (List.dropWhile_sublist (l := cs) (fun c2 => !isWordChar c2)).length_le
    simp
    omega

/-- C6: universal characterization of the flattening, plus the spec's
example: (i) for every mapping and every prefix, `envvars_for_event` equals
assigning, in order, into an empty dict the name/value pairs described by
the spec (`flatPairsD`): the variable name derived from the prefix and key,
nested mappings flattened recursively under the parent's derived name, and
every leaf rendered with `str`; (ii) for every prefix and key, the derived
name is the prefix, an underscore, and the upper-cased key with each
maximal run of non-word characters replaced by one underscore
(`squashSpec`); (iii) the spec's example `{'id': 5, 'user': {'type':
'HumanUser', 'id': 3}}` yields exactly the three stated variables. -/
theorem envvars_for_event_flattening :
    (∀ (event : PyDict) (pfx : String),
        envvars_for_event event pfx = strUpdate [] (flatPairsD event pfx))
  ∧ (∀ (pfx k : String),
        envKey pfx k = pfx ++ "_" ++ String.mk (squashSpec (k.toList.map Char.toUpper)))
  ∧ envvars_for_event
        (PyDict.cons "id" (PyVal.int 5)
          (PyDict.cons "user" (PyVal.dict (PyDict.cons "type" (PyVal.str "HumanUser")
            (PyDict.cons "id" (PyVal.int 3) PyDict.nil))) PyDict.nil))
        "SGEVENT"
      = [("SGEVENT_ID", "5"), ("SGEVENT_USER_TYPE", "HumanUser"), ("SGEVENT_USER_ID", "3")] := by
  refine ⟨?_, ?_, ?_⟩
  · intro event pfx
    exact envvarsD_eq_flat event pfx [] (by simp [keysNodup])
  · intro pfx k
    rw [envKey, squashAux_eq_squashSpec]
  · rfl

/-! ## C7 -/

theorem lookup_setVal_self (e : PyDict) (key : String) (v : PyVal) :
    PyDict.lookup (PyDict.setVal e key v) key = some v := by
  match e with
  | PyDict.nil => simp [PyDict.setVal, PyDict.lookup]
  | PyDict.cons k w rest =>
    by_cases hk : k = key
    · simp [PyDict.setVal, hk, PyDict.lookup]
    · simp [PyDict.setVal, hk, PyDict.lookup, lookup_setVal_self rest key v]

theorem lookup_setVal_ne (e : PyDict) (key k2 : String) (v : PyVal) (hne : ¬(k2 = key)) :
    PyDict.lookup (PyDict.setVal e key v) k2 = PyDict.lookup e k2 := by
  have hne2 : ¬(key = k2) := fun h => hne h.symm
  match e with
  | PyDict.nil =>
    simp [PyDict.setVal, PyDict.lookup, hne2]
  | PyDict.cons k w rest =>
    by_cases hk : k = key
    · subst hk
      simp [PyDict.setVal, PyDict.lookup, hne2]
    · simp [PyDict.setVal, hk, PyDict.lookup, lookup_setVal_ne rest key k2 v hne]

theorem get_setVal_self (e : PyDict) (key : String) (v : PyVal) :
    get (PyDict.setVal e key v) key = v := by
  simp [get, lookup_setVal_self]

/-- C7: `find_retired_entity` (i) returns a truthy already-present entity
with the record untouched; (ii) otherwise queries the client once for an
entity of type `entity_type` whose event-log back-reference is this
event's `id`, and on a truthy result caches it under `'entity'` and
returns it; (iii) on a falsy query result fails with an error carrying the
entity type and the event id (the record is not updated); and (iv) the
outcome depends on the client only through that single query point. -/
theorem find_retired_entity_spec (sg sg2 : String → PyVal → PyVal) (e : Event) :
    (truthy (get e "entity") = true →
        find_retired_entity sg e = Except.ok (get e "entity", e))
  ∧ (∀ et, truthy (get e "entity") = false → entity_type e = Except.ok et →
        truthy (sg et (get e "id")) = true →
        find_retired_entity sg e
          = Except.ok (sg et (get e "id"), PyDict.setVal e "entity" (sg et (get e "id"))))
  ∧ (∀ et i, truthy (get e "entity") = false → entity_type e = Except.ok et →
        get e "id" = PyVal.int i →
        truthy (sg et (PyVal.int i)) = false →
        find_retired_entity sg e
          = Except.error ("could not find retired " ++ et ++ " for event " ++ toString i))
  ∧ (∀ et, truthy (get e "entity") = false → entity_type e = Except.ok et →
        sg et (get e "id") = sg2 et (get e "id") →
        find_retired_entity sg e = find_retired_entity sg2 e) := by
  refine ⟨?_, ?_, ?_, ?_⟩
  · intro htr
    simp [find_retired_entity, htr, exceptOkBind]
  · intro et htr het hfound
    simp [find_retired_entity, htr, het, hfound, exceptOkBind, get_setVal_self]
  · intro et i htr het hid hfound
    simp [find_retired_entity, htr, het, hid, hfound, formatD, exceptOkBind, exceptErrBind]
  · intro et htr het hagree
    simp [find_retired_entity, htr, het, hagree, exceptOkBind, exceptErrBind]

/-- C7 witness: a retired-`Shot` event with id 9 and a client returning
`{'type': 'Shot', 'id': 7}` caches and returns that entity. -/
theorem find_retired_entity_spec_witness :
    find_retired_entity
        (fun _ _ => PyVal.dict (PyDict.cons "type" (PyVal.str "Shot")
          (PyDict.cons "id" (PyVal.int 7) PyDict.nil)))
        (PyDict.cons "event_type" (PyVal.str "Shotgun_Shot_Retirement")
          (PyDict.cons "id" (PyVal.int 9) PyDict.nil))
      = Except.ok
          (PyVal.dict (PyDict.cons "type" (PyVal.str "Shot")
            (PyDict.cons "id" (PyVal.int 7) PyDict.nil)),
           PyDict.cons "event_type" (PyVal.str "Shotgun_Shot_Retirement")
            (PyDict.cons "id" (PyVal.int 9)
              (PyDict.cons "entity" (PyVal.dict (PyDict.cons "type" (PyVal.str "Shot")
                (PyDict.cons "id" (PyVal.int 7) PyDict.nil))) PyDict.nil))) :=
  (find_retired_entity_spec
      (fun _ _ => PyVal.dict (PyDict.cons "type" (PyVal.str "Shot")
        (PyDict.cons "id" (PyVal.int 7) PyDict.nil)))
      (fun _ _ => PyVal.dict (PyDict.cons "type" (PyVal.str "Shot")
        (PyDict.cons "id" (PyVal.int 7) PyDict.nil)))
      (PyDict.cons "event_type" (PyVal.str "Shotgun_Shot_Retirement")
        (PyDict.cons "id" (PyVal.int 9) PyDict.nil))).2.1
    "Shot" rfl rfl rfl

/-! ## C8 -/

/-- C8: the field accessors and computed properties of the embedding are
plain functions of the record and return no modified record, so reads
cannot mutate it; the one mutating operation, `find_retired_entity`,
changes at most the `'entity'` key — every other key reads the same after
it — and leaves the record entirely unchanged when a truthy entity was
already present. -/
theorem find_retired_entity_frame (sg : String → PyVal → PyVal) (e : Event)
    (r : PyVal) (e2 : Event)
    (h : find_retired_entity sg e = Except.ok (r, e2)) :
    (∀ k, ¬(k = "entity") → PyDict.lookup e2 k = PyDict.lookup e k)
  ∧ (truthy (get e "entity") = true → e2 = e) := by
  by_cases htr : truthy (get e "entity") = true
  · simp [find_retired_entity, htr, exceptOkBind] at h
    constructor
    · intro k _
      rw [h.2]
    · intro _
      exact h.2.symm
  · simp only [Bool.not_eq_true] at htr
    cases het : entity_type e with
    | error msg =>
      simp [find_retired_entity, htr, het, exceptErrBind, exceptOkBind] at h
    | ok et =>
      cases hfound : truthy (sg et (get e "id")) with
      | true =>
        simp [find_retired_entity, htr, het, hfound, exceptOkBind] at h
        constructor
        · intro k hk
          rw [← h.2, lookup_setVal_ne e "entity" k (sg et (get e "id")) hk]
        · intro hcontra
          rw [hcontra] at htr
          cases htr
      | false =>
        cases hfd : formatD (get e "id") with
        | error msg =>
          simp [find_retired_entity, htr, het, hfound, hfd, exceptOkBind, exceptErrBind] at h
        | ok idStr =>
          simp [find_retired_entity, htr, het, hfound, hfd, exceptOkBind, exceptErrBind] at h

/-- C8 witness: on the retired-`Shot` event, the keys other than `'entity'`
(here `'id'`) are unchanged by a successful `find_retired_entity`. -/
theorem find_retired_entity_frame_witness :
    PyDict.lookup
        (PyDict.cons "event_type" (PyVal.str "Shotgun_Shot_Retirement")
          (PyDict.cons "id" (PyVal.int 9)
            (PyDict.cons "entity" (PyVal.dict (PyDict.cons "type" (PyVal.str "Shot")
              (PyDict.cons "id" (PyVal.int 7) PyDict.nil))) PyDict.nil)))
        "id"
      = PyDict.lookup
          (PyDict.cons "event_type" (PyVal.str "Shotgun_Shot_Retirement")
            (PyDict.cons "id" (PyVal.int 9) PyDict.nil))
          "id" :=
  (find_retired_entity_frame
      (fun _ _ => PyVal.dict (PyDict.cons "type" (PyVal.str "Shot")
        (PyDict.cons "id" (PyVal.int 7) PyDict.nil)))
      (PyDict.cons "event_type" (PyVal.str "Shotgun_Shot_Retirement")
        (PyDict.cons "id" (PyVal.int 9) PyDict.nil))
      (PyVal.dict (PyDict.cons "type" (PyVal.str "Shot")
        (PyDict.cons "id" (PyVal.int 7) PyDict.nil)))
      (PyDict.cons "event_type" (PyVal.str "Shotgun_Shot_Retirement")
        (PyDict.cons "id" (PyVal.int 9)
          (PyDict.cons "entity" (PyVal.dict (PyDict.cons "type" (PyVal.str "Shot")
            (PyDict.cons "id" (PyVal.int 7) PyDict.nil))) PyDict.nil)))
      rfl).1
    "id" (by decide)

/-! ## C5 -/

theorem toList_colon_seam (p f : String) :
    (p ++ ":" ++ f).toList = p.toList ++ ':' :: f.toList := by
  show (p ++ ":" ++ f).data = p.data ++ ':' :: f.data
  simp [String.data_append]

theorem lastColonSplit_no_colon (l : List Char) (h : ':' ∉ l) :
    lastColonSplit l = Option.none := by
  induction l with
  | nil => rfl
  | cons c cs ih =>
    have hc : ¬(c = ':') := fun hcc => h (hcc ▸ List.mem_cons_self c cs)
    have hcs : ':' ∉ cs := fun hm => h (List.mem_cons_of_mem _ hm)
    simp [lastColonSplit, ih hcs, hc]

theorem no_colon_of_lastColonSplit_none (l : List Char)
    (h : lastColonSplit l = Option.none) : ':' ∉ l := by
  induction l with
  | nil => simp
  | cons c cs ih =>
    cases hcs : lastColonSplit cs with
    | some pf => simp [lastColonSplit, hcs] at h
    | none =>
      by_cases hc : c = ':'
      · simp [lastColonSplit, hcs, hc] at h
      · simp only [List.mem_cons, not_or]
        exact ⟨fun hh => hc hh.symm, ih hcs⟩

theorem lastColonSplit_seam (p f : List Char) (hf : ':' ∉ f) :
    lastColonSplit (p ++ ':' :: f) = some (p, f) := by
  induction p with
  | nil => simp [lastColonSplit, lastColonSplit_no_colon f hf]
  | cons c cs ih => simp [lastColonSplit, ih]

theorem lastColonSplit_sound (l p f : List Char)
    (h : lastColonSplit l = some (p, f)) : l = p ++ ':' :: f ∧ ':' ∉ f := by
  induction l generalizing p f with
  | nil => simp [lastColonSplit] at h
  | cons c cs ih =>
    cases hcs : lastColonSplit cs with
    | some pf =>
      rcases pf with ⟨p2, f2⟩
      simp only [lastColonSplit, hcs] at h
      obtain ⟨hp, hf⟩ : c :: p2 = p ∧ f2 = f := by
        constructor <;> { injection h with h1; injection h1 }
      obtain ⟨hcs2, hnc⟩ := ih p2 f2 hcs
      subst hp
      subst hf
      exact ⟨by rw [List.cons_append, ← hcs2], hnc⟩
    | none =>
      by_cases hc : c = ':'
      · simp only [lastColonSplit, hcs, hc, if_true, Option.some.injEq, Prod.mk.injEq] at h
        obtain ⟨hp, hf⟩ := h
        subst hc
        constructor
        · rw [← hp, ← hf]
          rfl
        · rw [← hf]
          exact no_colon_of_lastColonSplit_none cs hcs
      · simp [lastColonSplit, hcs, hc] at h

theorem no_colon_of_word (f : String) (hfw : ∀ c ∈ f.toList, isWordChar c = true) :
    ':' ∉ f.toList :=
  fun hc => absurd (hfw ':' hc) (by decide)

theorem toList_colon_seam_newline (p f : String) :
    (p ++ ":" ++ f ++ "\n").toList = (p.toList ++ ':' :: f.toList) ++ ['\n'] := by
  show (p ++ ":" ++ f ++ "\n").data = (p.data ++ ':' :: f.data) ++ ['\n']
  simp [String.data_append]

theorem stripDollarNewline_cons2 (c d : Char) (ds : List Char) :
    stripDollarNewline (c :: d :: ds) = c :: stripDollarNewline (d :: ds) := rfl

theorem stripDollarNewline_no_newline (l : List Char) (h : '\n' ∉ l) :
    stripDollarNewline l = l := by
  induction l with
  | nil => rfl
  | cons c cs ih =>
    have hc : ¬(c = '\n') := fun hcc => h (hcc ▸ List.mem_cons_self c cs)
    have hcs : '\n' ∉ cs := fun hm => h (List.mem_cons_of_mem _ hm)
    cases cs with
    | nil => simp [stripDollarNewline, hc]
    | cons d ds => rw [stripDollarNewline_cons2, ih hcs]

theorem stripDollarNewline_newline_end (l : List Char) :
    stripDollarNewline (l ++ ['\n']) = l := by
  induction l with
  | nil => simp [stripDollarNewline]
  | cons c cs ih =>
    cases cs with
    | nil => simp [stripDollarNewline]
    | cons d ds =>
      have h1 : (c :: d :: ds) ++ ['\n'] = c :: d :: (ds ++ ['\n']) := rfl
      have h2 : (d :: ds) ++ ['\n'] = d :: (ds ++ ['\n']) := rfl
      rw [h1, stripDollarNewline_cons2, ← h2, ih]

theorem stripDollarNewline_cases (l : List Char) :
    stripDollarNewline l = l ∨ l = stripDollarNewline l ++ ['\n'] := by
  induction l with
  | nil => exact Or.inl rfl
  | cons c cs ih =>
    cases cs with
    | nil =>
      by_cases hc : c = '\n'
      · subst hc
        exact Or.inr (by simp [stripDollarNewline])
      · exact Or.inl (by simp [stripDollarNewline, hc])
    | cons d ds =>
      rcases ih with h | h
      · exact Or.inl (by rw [stripDollarNewline_cons2, h])
      · refine Or.inr ?_
        rw [stripDollarNewline_cons2, List.cons_append, ← h]

theorem newline_not_mem_wordSeam (m f : List Char)
    (hm : ∀ c ∈ m, isWordDotChar c = true) (hf : ∀ c ∈ f, isWordChar c = true) :
    '\n' ∉ m ++ ':' :: f := by
  intro hmem
  rcases List.mem_append.mp hmem with h | h
  · exact absurd (hm _ h) (by decide)
  · rcases List.mem_cons.mp h with h | h
    · exact absurd h (by decide)
    · exact absurd (hf _ h) (by decide)

theorem newline_not_mem_pathSeam (p f : List Char)
    (hp : ∀ c ∈ p, ¬(c = '\n')) (hf : ∀ c ∈ f, isWordChar c = true) :
    '\n' ∉ p ++ ':' :: f := by
  intro hmem
  rcases List.mem_append.mp hmem with h | h
  · exact hp _ h rfl
  · rcases List.mem_cons.mp h with h | h
    · exact absurd h (by decide)
    · exact absurd (hf _ h) (by decide)

theorem matchModuleForm_core (s m f : String)
    (hstrip : stripDollarNewline s.toList = m.data ++ ':' :: f.data)
    (hm : m.toList ≠ []) (hmw : ∀ c ∈ m.toList, isWordDotChar c = true)
    (hf : f.toList ≠ []) (hfw : ∀ c ∈ f.toList, isWordChar c = true) :
    matchModuleForm s = some (m, f) := by
  have hstrip2 : stripDollarNewline s.data = m.data ++ ':' :: f.data := hstrip
  have hls : lastColonSplit (m.data ++ ':' :: f.data) = some (m.data, f.data) :=
    lastColonSplit_seam m.data f.data (no_colon_of_word f hfw)
  have hmw2 : ∀ c ∈ m.data, isWordDotChar c = true := hmw
  have hfw2 : ∀ c ∈ f.data, isWordChar c = true := hfw
  have hm2 : ¬(m.data = []) := hm
  have hf2 : ¬(f.data = []) := hf
  simp [matchModuleForm, hstrip, hstrip2, hls, hmw2, hfw2, hm2, hf2]
  exact ⟨hmw2, hfw2⟩

/-- Both accepted spellings of the module form — with and without the
trailing newline admitted by `$` — match, with the same groups. -/
theorem matchModuleForm_seam (m f : String)
    (hm : m.toList ≠ []) (hmw : ∀ c ∈ m.toList, isWordDotChar c = true)
    (hf : f.toList ≠ []) (hfw : ∀ c ∈ f.toList, isWordChar c = true) :
    matchModuleForm (m ++ ":" ++ f) = some (m, f)
      ∧ matchModuleForm (m ++ ":" ++ f ++ "\n") = some (m, f) := by
  constructor
  · refine matchModuleForm_core (m ++ ":" ++ f) m f ?_ hm hmw hf hfw
    rw [toList_colon_seam]
    exact stripDollarNewline_no_newline _ (newline_not_mem_wordSeam m.data f.data hmw hfw)
  · refine matchModuleForm_core (m ++ ":" ++ f ++ "\n") m f ?_ hm hmw hf hfw
    rw [toList_colon_seam_newline]
    exact stripDollarNewline_newline_end _

theorem matchModuleForm_slash_core (s p f : String)
    (hstrip : stripDollarNewline s.toList = p.data ++ ':' :: f.data)
    (hslash : '/' ∈ p.toList) (hfw : ∀ c ∈ f.toList, isWordChar c = true) :
    matchModuleForm s = Option.none := by
  have hstrip2 : stripDollarNewline s.data = p.data ++ ':' :: f.data := hstrip
  have hls : lastColonSplit (p.data ++ ':' :: f.data) = some (p.data, f.data) :=
    lastColonSplit_seam p.data f.data (no_colon_of_word f hfw)
  have hbad : ¬(∀ c ∈ p.data, isWordDotChar c = true) :=
    fun hall => absurd (hall '/' hslash) (by decide)
  simp [matchModuleForm, hstrip, hstrip2, hls, hbad]

theorem matchPathForm_core (s p f : String)
    (hstrip : stripDollarNewline s.toList = p.data ++ ':' :: f.data)
    (hp : p.toList ≠ []) (hnl : ∀ c ∈ p.toList, ¬(c = '\n'))
    (hf : f.toList ≠ []) (hfw : ∀ c ∈ f.toList, isWordChar c = true) :
    matchPathForm s = some (p, f) := by
  have hstrip2 : stripDollarNewline s.data = p.data ++ ':' :: f.data := hstrip
  have hls : lastColonSplit (p.data ++ ':' :: f.data) = some (p.data, f.data) :=
    lastColonSplit_seam p.data f.data (no_colon_of_word f hfw)
  have hnl2 : ∀ c ∈ p.data, ¬(c = '\n') := hnl
  have hfw2 : ∀ c ∈ f.data, isWordChar c = true := hfw
  have hp2 : ¬(p.data = []) := hp
  have hf2 : ¬(f.data = []) := hf
  simp [matchPathForm, hstrip, hstrip2, hls, hnl2, hfw2, hp2, hf2]
  exact ⟨hnl2, hfw2⟩

/-- Both accepted spellings of the path form match, with the same groups. -/
theorem matchPathForm_seam (p f : String)
    (hp : p.toList ≠ []) (hnl : ∀ c ∈ p.toList, ¬(c = '\n'))
    (hf : f.toList ≠ []) (hfw : ∀ c ∈ f.toList, isWordChar c = true) :
    matchPathForm (p ++ ":" ++ f) = some (p, f)
      ∧ matchPathForm (p ++ ":" ++ f ++ "\n") = some (p, f) := by
  constructor
  · refine matchPathForm_core (p ++ ":" ++ f) p f ?_ hp hnl hf hfw
    rw [toList_colon_seam]
    exact stripDollarNewline_no_newline _ (newline_not_mem_pathSeam p.data f.data hnl hfw)
  · refine matchPathForm_core (p ++ ":" ++ f ++ "\n") p f ?_ hp hnl hf hfw
    rw [toList_colon_seam_newline]
    exact stripDollarNewline_newline_end _

theorem seam_of_strip (s : String) (pl fl : List Char)
    (hsplit : stripDollarNewline s.toList = pl ++ ':' :: fl) :
    s = String.mk pl ++ ":" ++ String.mk fl
      ∨ s = String.mk pl ++ ":" ++ String.mk fl ++ "\n" := by
  rcases stripDollarNewline_cases s.toList with hc | hc
  · left
    apply String.ext
    show s.data = (String.mk pl ++ ":" ++ String.mk fl).data
    simp only [String.data_append]
    have : s.toList = pl ++ ':' :: fl := by rw [← hc, hsplit]
    simpa using this
  · right
    apply String.ext
    show s.data = (String.mk pl ++ ":" ++ String.mk fl ++ "\n").data
    simp only [String.data_append]
    have : s.toList = (pl ++ ':' :: fl) ++ ['\n'] := by rw [hc, hsplit]
    simpa [List.append_assoc] using this

theorem matchModuleForm_sound (s m f : String) (h : matchModuleForm s = some (m, f)) :
    (s = m ++ ":" ++ f ∨ s = m ++ ":" ++ f ++ "\n")
      ∧ m.toList ≠ [] ∧ (∀ c ∈ m.toList, isWordDotChar c = true)
      ∧ f.toList ≠ [] ∧ (∀ c ∈ f.toList, isWordChar c = true) := by
  unfold matchModuleForm at h
  cases hls : lastColonSplit (stripDollarNewline s.toList) with
  | none => rw [hls] at h; cases h
  | some pf =>
    rcases pf with ⟨pl, fl⟩
    rw [hls] at h
    dsimp only at h
    split at h
    case isFalse => cases h
    case isTrue hcond =>
      simp only [Bool.and_eq_true, Bool.not_eq_true', List.isEmpty_eq_false,
        List.all_eq_true] at hcond
      obtain ⟨⟨⟨hpe, hpw⟩, hfe⟩, hfw⟩ := hcond
      obtain ⟨hm, hf⟩ : String.mk pl = m ∧ String.mk fl = f := by
        constructor <;> { injection h with h1; injection h1 }
      obtain ⟨hsplit, _⟩ := lastColonSplit_sound (stripDollarNewline s.toList) pl fl hls
      subst hm
      subst hf
      exact ⟨seam_of_strip s pl fl hsplit, hpe, hpw, hfe, hfw⟩

theorem matchPathForm_sound (s p f : String) (h : matchPathForm s = some (p, f)) :
    (s = p ++ ":" ++ f ∨ s = p ++ ":" ++ f ++ "\n")
      ∧ p.toList ≠ [] ∧ (∀ c ∈ p.toList, ¬(c = '\n'))
      ∧ f.toList ≠ [] ∧ (∀ c ∈ f.toList, isWordChar c = true) := by
  unfold matchPathForm at h
  cases hls : lastColonSplit (stripDollarNewline s.toList) with
  | none => rw [hls] at h; cases h
  | some pf =>
    rcases pf with ⟨pl, fl⟩
    rw [hls] at h
    dsimp only at h
    split at h
    case isFalse => cases h
    case isTrue hcond =>
      simp only [Bool.and_eq_true, Bool.not_eq_true', List.isEmpty_eq_false,
        List.all_eq_true] at hcond
      obtain ⟨⟨⟨hpe, hpw⟩, hfe⟩, hfw⟩ := hcond
      obtain ⟨hm, hf⟩ : String.mk pl = p ∧ String.mk fl = f := by
        constructor <;> { injection h with h1; injection h1 }
      obtain ⟨hsplit, _⟩ := lastColonSplit_sound (stripDollarNewline s.toList) pl fl hls
      subst hm
      subst hf
      refine ⟨seam_of_strip s pl fl hsplit, hpe, ?_, hfe, hfw⟩
      intro c hc
      have := hpw c hc
      simpa using this

/-- C5: `get_func` returns non-string specs unchanged; a string of the form
`{module}:{func}` with a non-empty dotted-word module part and a non-empty
word function part resolves by import (also with the single trailing
newline that the `$` anchor tolerates); a string of the form
`{path}:{func}` whose path contains `/` resolves by ad-hoc file loading
(the final colon splits path from function name, as the greedy anchored
pattern does; a trailing newline is likewise tolerated); any string
admitting neither decomposition — up to that optional trailing newline —
fails with exactly the documented `ValueError` message, the spec rendered
through py2 `repr`. -/
theorem get_func_spec :
    (∀ v : PyVal, (∀ s, ¬(v = PyVal.str s)) →
        get_func v = Except.ok (ResolvedSpec.passthrough v))
  ∧ (∀ m f : String, m.toList ≠ [] → (∀ c ∈ m.toList, isWordDotChar c = true) →
        f.toList ≠ [] → (∀ c ∈ f.toList, isWordChar c = true) →
        get_func (PyVal.str (m ++ ":" ++ f)) = Except.ok (ResolvedSpec.byImport m f)
          ∧ get_func (PyVal.str (m ++ ":" ++ f ++ "\n"))
              = Except.ok (ResolvedSpec.byImport m f))
  ∧ (∀ p f : String, '/' ∈ p.toList → (∀ c ∈ p.toList, ¬(c = '\n')) →
        f.toList ≠ [] → (∀ c ∈ f.toList, isWordChar c = true) →
        get_func (PyVal.str (p ++ ":" ++ f)) = Except.ok (ResolvedSpec.byPath p f)
          ∧ get_func (PyVal.str (p ++ ":" ++ f ++ "\n"))
              = Except.ok (ResolvedSpec.byPath p f))
  ∧ (∀ s : String,
        (¬ ∃ m f : String, (s = m ++ ":" ++ f ∨ s = m ++ ":" ++ f ++ "\n") ∧
          m.toList ≠ [] ∧ (∀ c ∈ m.toList, isWordDotChar c = true) ∧ f.toList ≠ [] ∧
          (∀ c ∈ f.toList, isWordChar c = true)) →
        (¬ ∃ p f : String, (s = p ++ ":" ++ f ∨ s = p ++ ":" ++ f ++ "\n") ∧
          '/' ∈ p.toList ∧ (∀ c ∈ p.toList, ¬(c = '\n')) ∧ f.toList ≠ [] ∧
          (∀ c ∈ f.toList, isWordChar c = true)) →
        get_func (PyVal.str s) = Except.error (specErrMsg s)) := by
  refine ⟨?_, ?_, ?_, ?_⟩
  · intro v hv
    match v with
    | PyVal.none => rfl
    | PyVal.int n => rfl
    | PyVal.dict d => rfl
    | PyVal.str s => exact absurd rfl (hv s)
  · intro m f hm hmw hf hfw
    obtain ⟨hmm1, hmm2⟩ := matchModuleForm_seam m f hm hmw hf hfw
    exact ⟨by simp [get_func, hmm1], by simp [get_func, hmm2]⟩
  · intro p f hslash hnl hf hfw
    have hp : p.toList ≠ [] := List.ne_nil_of_mem hslash
    have hmem : '/' ∈ p.data := hslash
    obtain ⟨hpp1, hpp2⟩ := matchPathForm_seam p f hp hnl hf hfw
    have hsn1 : stripDollarNewline ((p ++ ":" ++ f).toList) = p.data ++ ':' :: f.data := by
      rw [toList_colon_seam]
      exact stripDollarNewline_no_newline _ (newline_not_mem_pathSeam p.data f.data hnl hfw)
    have hsn2 : stripDollarNewline ((p ++ ":" ++ f ++ "\n").toList)
        = p.data ++ ':' :: f.data := by
      rw [toList_colon_seam_newline]
      exact stripDollarNewline_newline_end _
    constructor
    · simp [get_func, matchModuleForm_slash_core (p ++ ":" ++ f) p f hsn1 hslash hfw,
        hpp1, hmem]
    · simp [get_func, matchModuleForm_slash_core (p ++ ":" ++ f ++ "\n") p f hsn2 hslash hfw,
        hpp2, hmem]
  · intro s h1 h2
    cases hm : matchModuleForm s with
    | some mf =>
      rcases mf with ⟨m, f⟩
      obtain ⟨heq, hm1, hm2, hf1, hf2⟩ := matchModuleForm_sound s m f hm
      exact absurd ⟨m, f, heq, hm1, hm2, hf1, hf2⟩ h1
    | none =>
      cases hp : matchPathForm s with
      | none => simp [get_func, hm, hp]
      | some pf =>
        rcases pf with ⟨p, f⟩
        obtain ⟨heq, hp1, hp2, hf1, hf2⟩ := matchPathForm_sound s p f hp
        by_cases hmem : '/' ∈ p.toList
        · exact absurd ⟨p, f, heq, hmem, hp2, hf1, hf2⟩ h2
        · have hmem2 : ¬('/' ∈ p.data) := hmem
          simp [get_func, hm, hp, hmem2]

theorem colon_mem_of_seam (s m f : String)
    (h : s = m ++ ":" ++ f ∨ s = m ++ ":" ++ f ++ "\n") : ':' ∈ s.toList := by
  rcases h with h | h
  · subst h
    rw [toList_colon_seam]
    simp
  · subst h
    rw [toList_colon_seam_newline]
    simp

/-- C5 witness: `"not-a-valid-spec"` (no colon) matches neither form and
fails with exactly the documented message (with `%r` quoting). -/
theorem get_func_spec_witness :
    get_func (PyVal.str "not-a-valid-spec") = Except.error (specErrMsg "not-a-valid-spec") := by
  apply get_func_spec.2.2.2 "not-a-valid-spec"
  · rintro ⟨m, f, heq, -, -, -, -⟩
    exact absurd (colon_mem_of_seam "not-a-valid-spec" m f heq) (by decide)
  · rintro ⟨p, f, heq, -, -, -, -⟩
    exact absurd (colon_mem_of_seam "not-a-valid-spec" p f heq) (by decide)

/-! ## C10 -/

theorem mem_strSet (d : List (String × String)) (key v : String) (x : String × String)
    (h : x ∈ strSet d key v) : x ∈ d ∨ x = (key, v) := by
  induction d with
  | nil =>
    simp [strSet] at h
    exact Or.inr h
  | cons kv rest ih =>
    rcases kv with ⟨k, w⟩
    by_cases hk : k = key
    · subst hk
      simp only [strSet, if_true, List.mem_cons] at h
      rcases h with h | h
      · exact Or.inr h
      · exact Or.inl (List.mem_cons_of_mem _ h)
    · simp only [strSet, hk, if_false, List.mem_cons] at h
      rcases h with h | h
      · exact Or.inl (by simp [h])
      · rcases ih h with h2 | h2
        · exact Or.inl (List.mem_cons_of_mem _ h2)
        · exact Or.inr h2

theorem mem_strUpdate (d new : List (String × String)) (x : String × String)
    (h : x ∈ strUpdate d new) : x ∈ d ∨ x ∈ new := by
  induction new generalizing d with
  | nil => exact Or.inl h
  | cons kv rest ih =>
    have h2 : x ∈ strUpdate (strSet d kv.1 kv.2) rest := h
    rcases ih (strSet d kv.1 kv.2) h2 with h3 | h3
    · rcases mem_strSet d kv.1 kv.2 x h3 with h4 | h4
      · exact Or.inl h4
      · exact Or.inr (by simp [h4])
    · exact Or.inr (List.mem_cons_of_mem _ h3)

mutual

theorem envvarsVal_keys (v : PyVal) (key : String) (acc : List (String × String))
    (x : String × String) (h : x ∈ envvarsVal v key acc) :
    x ∈ acc ∨ ∃ t, x.1 = key ++ t := by
  match v with
  | PyVal.dict d =>
    rcases mem_strUpdate acc (envvarsD d key []) x h with h2 | h2
    · exact Or.inl h2
    · rcases envvarsD_keys d key [] x h2 with h3 | h3
      · cases h3
      · obtain ⟨t, ht⟩ := h3
        exact Or.inr ⟨"_" ++ t, by rw [ht, String.append_assoc]⟩
  | PyVal.none =>
    rcases mem_strSet acc key (pyStr PyVal.none) x h with h2 | h2
    · exact Or.inl h2
    · exact Or.inr ⟨"", by rw [h2, String.append_empty]⟩
  | PyVal.int n =>
    rcases mem_strSet acc key (pyStr (PyVal.int n)) x h with h2 | h2
    · exact Or.inl h2
    · exact Or.inr ⟨"", by rw [h2, String.append_empty]⟩
  | PyVal.str s =>
    rcases mem_strSet acc key (pyStr (PyVal.str s)) x h with h2 | h2
    · exact Or.inl h2
    · exact Or.inr ⟨"", by rw [h2, String.append_empty]⟩

theorem envvarsD_keys (d : PyDict) (pfx : String) (acc : List (String × String))
    (x : String × String) (h : x ∈ envvarsD d pfx acc) :
    x ∈ acc ∨ ∃ t, x.1 = pfx ++ "_" ++ t := by
  match d with
  | PyDict.nil => exact Or.inl h
  | PyDict.cons k0 v rest =>
    have h2 : x ∈ envvarsD rest pfx (envvarsVal v (envKey pfx k0) acc) := h
    rcases envvarsD_keys rest pfx (envvarsVal v (envKey pfx k0) acc) x h2 with h3 | h3
    · rcases envvarsVal_keys v (envKey pfx k0) acc x h3 with h4 | h4
      · exact Or.inl h4
      · obtain ⟨t, ht⟩ := h4
        refine Or.inr ⟨String.mk (squashAux false (k0.toList.map Char.toUpper)) ++ t, ?_⟩
        rw [ht]
        show envKey pfx k0 ++ t = _
        rw [envKey, String.append_assoc, String.append_assoc]
    · exact Or.inr h3

end

/-- C10: every entry of `envvars_for_event` has a name that starts with the
given prefix followed by an underscore, recursively through arbitrarily
nested sub-mappings (and by the embedding's types every value is a
string). -/
theorem envvars_for_event_keys (event : PyDict) (pfx : String) :
    ∀ kv ∈ envvars_for_event event pfx, ∃ t, kv.1 = pfx ++ "_" ++ t := by
  intro kv h
  rcases envvarsD_keys event pfx [] kv h with h2 | h2
  · cases h2
  · exact h2

/-- C10 witness: the key `SGEVENT_ID` produced for `{'id': 5}` starts with
`SGEVENT_`. -/
theorem envvars_for_event_keys_witness :
    ∃ t, (("SGEVENT_ID", "5") : String × String).1 = "SGEVENT" ++ "_" ++ t :=
  envvars_for_event_keys (PyDict.cons "id" (PyVal.int 5) PyDict.nil) "SGEVENT"
    ("SGEVENT_ID", "5") (by decide)

end SGEvents
